import Mathlib

/-!
Verification of the pallet declaration validators of
`frame/support/procedural/src/pallet/parse/{call,error}.rs`.

The Rust source works on `syn` syntax trees.  We embed the parts of that
syntax tree that the two validators inspect: attribute lists with their
paths and payloads, function arguments with binding patterns and types,
impl blocks with generics, self type, optional trait reference and member
items, and enums with visibility, generics and variants.  Source spans are
not modelled; a diagnostic is its message string.  A Rust `panic!` (the
`unreachable!` in `call.rs`) is kept distinct from a returned `syn::Error`.
-/

/-- An expression payload (`syn::Expr`), kept opaque up to equality: the
validators never look inside the weight expression, they thread it through. -/
inductive RExpr where
  | lit (n : Nat)
  | var (s : String)
  | binop (op : String) (l r : RExpr)
deriving DecidableEq

/-- Payload carried by an attribute after its path:
`unit` for `#[p::q]`, `eqExpr e` for `#[p::q = <expr>]`,
`docLit s` for the string literal of a `#[doc = "..."]` comment,
`other` for any payload shape none of the marker grammars accept. -/
inductive AttrPayload where
  | unit
  | eqExpr (e : RExpr)
  | docLit (s : String)
  | other (tag : Nat)
deriving DecidableEq

/-- One `syn::Attribute`: a path (list of segments) plus a payload. -/
structure Attribute where
  path : List String
  payload : AttrPayload
deriving DecidableEq

/-- A type expression (`syn::Type`).  The validators only ever compare a
type against a literal single-identifier keyword, so a type is either a
single identifier path or some other shape. -/
inductive Ty where
  | ident (name : String)
  | other (tag : Nat)
deriving DecidableEq

/-- A binding pattern (`syn::Pat`): a plain identifier or anything else
(tuple destructuring, wildcard, ...). -/
inductive Pat where
  | ident (name : String)
  | tuple (arity : Nat)
  | wild
deriving DecidableEq

/-- A function argument (`syn::FnArg`): a `self` receiver or a typed
argument `attrs pat : ty`. -/
inductive FnArg where
  | receiver
  | typed (attrs : List Attribute) (pat : Pat) (ty : Ty)
deriving DecidableEq

/-- A method signature (`syn::Signature`): name, inputs, and the return
type (`none` models `syn::ReturnType::Default`). -/
structure Signature where
  ident : String
  inputs : List FnArg
  output : Option Ty
deriving DecidableEq

/-- An impl-block method (`syn::ImplItemMethod`): its attributes and its
signature. -/
structure Method where
  attrs : List Attribute
  sig : Signature
deriving DecidableEq

/-- A member of an impl block (`syn::ImplItem`): a method or any other
member kind (const, type alias, ...). -/
inductive ImplItem where
  | method (m : Method)
  | other (tag : Nat)
deriving DecidableEq

/-- Generic parameters (`syn::Generics`): the parameter list is opaque to
this core (only the external oracle looks at it); the where clause only
matters by presence. -/
structure Generics where
  params : List String
  where_clause : Option Nat
deriving DecidableEq

/-- An impl block (`syn::ItemImpl`), restricted to the fields `try_from`
reads: generics, optional trait reference (its path), self type, members. -/
structure ItemImpl where
  generics : Generics
  trait_ : Option (List String)
  self_ty : Ty
  items : List ImplItem
deriving DecidableEq

/-- Visibility of an item (`syn::Visibility`). -/
inductive Visibility where
  | public
  | inherited
  | restricted
deriving DecidableEq

/-- An enum variant (`syn::Variant`): attributes, name, field shape, and
optional explicit discriminant expression. -/
inductive Fields where
  | unit
  | named (n : Nat)
  | unnamed (n : Nat)
deriving DecidableEq

structure Variant where
  attrs : List Attribute
  ident : String
  fields : Fields
  discriminant : Option RExpr
deriving DecidableEq

/-- An enum item (`syn::ItemEnum`), restricted to the fields read. -/
structure ItemEnum where
  vis : Visibility
  ident : String
  generics : Generics
  variants : List Variant
deriving DecidableEq

/-- A top-level item (`syn::Item`): the two validators each accept one
kind and reject the rest. -/
inductive Item where
  | impl_ (i : ItemImpl)
  | enum_ (e : ItemEnum)
  | other (tag : Nat)
deriving DecidableEq

/-- Outcome of a fallible Rust step: a returned `syn::Error` (a diagnostic
message) or a `panic!`/`unreachable!`. -/
inductive RErr where
  | err (msg : String)
  | panic (msg : String)
deriving DecidableEq

/-- Decidable equality for `Except`, so that witnesses can be checked by
evaluation. -/
instance instDecidableEqExcept {ε α : Type} [DecidableEq ε] [DecidableEq α] :
    DecidableEq (Except ε α) := fun x y =>
  match x, y with
  | Except.ok a, Except.ok b =>
    if h : a = b then isTrue (by rw [h]) else isFalse (fun hc => h (Except.ok.inj hc))
  | Except.error a, Except.error b =>
    if h : a = b then isTrue (by rw [h]) else isFalse (fun hc => h (Except.error.inj hc))
  | Except.ok _, Except.error _ => isFalse (fun hc => Except.noConfusion hc)
  | Except.error _, Except.ok _ => isFalse (fun hc => Except.noConfusion hc)

/-- Instance-usage token produced by the external oracle
(`helper::InstanceUsage`); its content is opaque to this core. -/
structure InstanceUsage where
  has_instance : Bool
deriving DecidableEq

/-- Modelled from the spec: the Doc-Literal Collector
(`helper::get_doc_literals`, not under `src/`).  Pure and read-only, it
returns the ordered string literal values of documentation-comment
attributes, skipping every other attribute kind. -/
def get_doc_literals (attrs : List Attribute) : List String :=
  attrs.filterMap fun a =>
    match a.path, a.payload with
    | ["doc"], AttrPayload.docLit s => some s
    | _, _ => none

/-- Modelled from the spec: the Attribute Extractor
(`helper::take_item_attrs`, not under `src/`).  It scans the attribute
list in order for attributes whose path matches the two-segment marker,
parses each match's payload under the caller-supplied grammar
(`parsePayload`, returning `none` on a malformed payload, which fails the
whole scan immediately with `malformedMsg`), removes matched attributes,
and returns the remaining attributes together with the ordered parsed
payloads; non-matching attributes are left untouched. -/
def take_item_attrs {G : Type} (marker : List String)
    (parsePayload : AttrPayload → Option G) (malformedMsg : String) :
    List Attribute → Except RErr (List Attribute × List G)
  | [] => Except.ok ([], [])
  | a :: rest =>
    if a.path = marker then
      match parsePayload a.payload with
      | some g =>
        match take_item_attrs marker parsePayload malformedMsg rest with
        | Except.ok (r, gs) => Except.ok (r, g :: gs)
        | Except.error e => Except.error e
      | none => Except.error (RErr.err malformedMsg)
    else
      match take_item_attrs marker parsePayload malformedMsg rest with
      | Except.ok (r, gs) => Except.ok (a :: r, gs)
      | Except.error e => Except.error e

/-- Marker path of the weight attribute `#[pallet::weight = <expr>]`. -/
def weightPath : List String := ["pallet", "weight"]

/-- Marker path of the compact attribute `#[pallet::compact]`. -/
def compactPath : List String := ["pallet", "compact"]

/-- Payload grammar of `FunctionAttr` (`#[pallet::weight = <expr>]`):
the payload must be `= <expr>`; anything else is malformed. -/
def parseWeightAttr : AttrPayload → Option RExpr
  | AttrPayload.eqExpr e => some e
  | _ => none

/-- Payload grammar of `ArgAttrIsCompact` (`#[pallet::compact]`):
the payload must be empty; anything else is malformed. -/
def parseCompactAttr : AttrPayload → Option Unit
  | AttrPayload.unit => some ()
  | _ => none

def msgExpectImpl : String := "Invalid pallet::call, expect item impl"

def msgExpectCallTrait : String :=
  "Invalid pallet::call, expect Call ident as in `impl<..> Call for Module<..> \x7b .. \x7d`"

def msgExpectedCallKw : String := "expected `Call`"

def msgAtLeastOrigin : String := "Invalid pallet::call, must have at least origin arg"

def msgRequireRet : String :=
  "Invalid pallet::call, require return type DispatchResultWithPostInfo"

def msgExpectedDRWPIKw : String := "expected `DispatchResultWithPostInfo`"

def msgRequireWeight : String :=
  "Invalid pallet::call, require weight attribute i.e. `#[pallet::weight]`"

def msgTooManyWeight : String := "Invalid pallet::call, to many weight attribute given"

def msgTooManyArgAttrs : String := "Invalid pallet::call, argument has too many attributes"

def msgArgMustBeIdent : String := "Invalid pallet::call, argumen must be ident"

def msgOnlyMethod : String := "Invalid pallet::call, only method accepted"

def msgMalformedWeight : String := "expected `#[pallet::weight = <expr>]`"

def msgMalformedCompact : String := "expected `#[pallet::compact]`"

def msgExpectEnum : String := "Invalid pallet::error, expect item enum"

def msgErrorMustBePublic : String := "Invalid pallet::error, `Error` must be public"

def msgWhereClause : String := "Invalid pallet::error, unexpected where clause"

def msgExpectedErrorKw : String := "expected `Error`"

def msgMustBeUnit : String := "Invalid pallet::error, unexpected fields, must be `Unit`"

def msgDiscriminant : String :=
  "Invalid pallet::error, unexpected discriminant, discriminant are not supported"

/-- `CallVariantDef` from `call.rs`: one dispatchable.  The span-only
keyword fields of the source structs are not modelled. -/
structure CallVariantDef where
  fn_ : String
  args : List (Bool × String × Ty)
  weight : RExpr
  docs : List String
deriving DecidableEq

/-- `CallDef` from `call.rs`.  The `call : keyword::Call` field carries
only a source span and is not modelled. -/
structure CallDef where
  instances : List InstanceUsage
  item : ItemImpl
  methods : List CallVariantDef
deriving DecidableEq

/-- The return-type check of `CallDef::try_from` (call.rs lines 107-113):
an absent return type gets the dedicated diagnostic, a present one must
parse as the single keyword `DispatchResultWithPostInfo`. -/
def checkOutputType (o : Option Ty) : Except RErr Unit :=
  match o with
  | some t =>
    if t = Ty.ident "DispatchResultWithPostInfo" then Except.ok ()
    else Except.error (RErr.err msgExpectedDRWPIKw)
  | none => Except.error (RErr.err msgRequireRet)

/-- The per-argument body of the loop in `CallDef::try_from` (call.rs
lines 128-150): a receiver in non-first position hits `unreachable!`;
otherwise strip the compact markers, reject more than one, require a
plain identifier pattern, and produce the stripped argument together
with its `(is_compact, name, type)` entry. -/
def processArg (arg : FnArg) : Except RErr (FnArg × (Bool × String × Ty)) :=
  match arg with
  | FnArg.receiver => Except.error (RErr.panic "Only first argument can be receiver")
  | FnArg.typed attrs pat ty =>
    match take_item_attrs compactPath parseCompactAttr msgMalformedCompact attrs with
    | Except.error e => Except.error e
    | Except.ok (attrs2, gs) =>
      if gs.length > 1 then Except.error (RErr.err msgTooManyArgAttrs)
      else
        match pat with
        | Pat.ident n => Except.ok (FnArg.typed attrs2 pat ty, (!gs.isEmpty, n, ty))
        | _ => Except.error (RErr.err msgArgMustBeIdent)

/-- The argument loop of `CallDef::try_from`, over the arguments after the
first: fail-fast, collecting stripped arguments and `args` entries in
declaration order. -/
def processArgs : List FnArg → Except RErr (List FnArg × List (Bool × String × Ty))
  | [] => Except.ok ([], [])
  | a :: rest =>
    match processArg a with
    | Except.error e => Except.error e
    | Except.ok (a2, entry) =>
      match processArgs rest with
      | Except.error e => Except.error e
      | Except.ok (rest2, entries) => Except.ok (a2 :: rest2, entry :: entries)

/-- The per-method body of `CallDef::try_from` (call.rs lines 100-159):
require at least the origin argument, run the caller-supplied first-arg
predicate, check the return type, extract exactly one weight marker (zero
and more-than-one each have their own diagnostic), process the remaining
arguments, and collect doc literals from the stripped attribute list.
Returns the stripped method together with its `CallVariantDef`. -/
def processMethod (cdfa : FnArg → Except RErr Unit) (m : Method) :
    Except RErr (Method × CallVariantDef) :=
  match m.sig.inputs with
  | [] => Except.error (RErr.err msgAtLeastOrigin)
  | arg0 :: rest =>
    match cdfa arg0 with
    | Except.error e => Except.error e
    | Except.ok _ =>
      match checkOutputType m.sig.output with
      | Except.error e => Except.error e
      | Except.ok _ =>
        match take_item_attrs weightPath parseWeightAttr msgMalformedWeight m.attrs with
        | Except.error e => Except.error e
        | Except.ok (attrs2, ws) =>
          match ws with
          | [w] =>
            match processArgs rest with
            | Except.error e => Except.error e
            | Except.ok (rest2, args) =>
              Except.ok
                ({ attrs := attrs2, sig := { m.sig with inputs := arg0 :: rest2 } },
                 { fn_ := m.sig.ident, args := args, weight := w,
                   docs := get_doc_literals attrs2 })
          | [] => Except.error (RErr.err msgRequireWeight)
          | _ => Except.error (RErr.err msgTooManyWeight)

/-- The member loop of `CallDef::try_from` (call.rs lines 99-164): any
non-method member fails; methods are processed in order, fail-fast. -/
def processImplItems (cdfa : FnArg → Except RErr Unit) :
    List ImplItem → Except RErr (List ImplItem × List CallVariantDef)
  | [] => Except.ok ([], [])
  | ImplItem.method m :: rest =>
    match processMethod cdfa m with
    | Except.error e => Except.error e
    | Except.ok (m2, v) =>
      match processImplItems cdfa rest with
      | Except.error e => Except.error e
      | Except.ok (rest2, vs) => Except.ok (ImplItem.method m2 :: rest2, v :: vs)
  | ImplItem.other _ :: _ => Except.error (RErr.err msgOnlyMethod)

/-- `CallDef::try_from` (call.rs lines 79-172).  The three external
helpers (`check_impl_generics`, `check_module_usage`,
`check_dispatchable_first_arg`, all outside `src/`) are taken as opaque
oracle parameters, as the spec specifies them only at their interface.
Note that the source takes the trait reference out of the item
(`item.trait_.take()`), so the retained `item` has no trait reference. -/
def CallDef.try_from
    (check_impl_generics : Generics → Except RErr InstanceUsage)
    (check_module_usage : Ty → Except RErr InstanceUsage)
    (check_dispatchable_first_arg : FnArg → Except RErr Unit)
    (item : Item) : Except RErr CallDef :=
  match item with
  | Item.impl_ i =>
    match check_impl_generics i.generics with
    | Except.error e => Except.error e
    | Except.ok u1 =>
      match check_module_usage i.self_ty with
      | Except.error e => Except.error e
      | Except.ok u2 =>
        match i.trait_ with
        | none => Except.error (RErr.err msgExpectCallTrait)
        | some p =>
          if p = ["Call"] then
            match processImplItems check_dispatchable_first_arg i.items with
            | Except.error e => Except.error e
            | Except.ok (items2, methods) =>
              Except.ok
                { instances := [u1, u2],
                  item := { i with trait_ := none, items := items2 },
                  methods := methods }
          else Except.error (RErr.err msgExpectedCallKw)
  | _ => Except.error (RErr.err msgExpectImpl)

/-- `ErrorDef` from `error.rs`.  The span-only `error : keyword::Error`
field is not modelled. -/
structure ErrorDef where
  index : Nat
  variants : List (String × List String)
  instances : List InstanceUsage
deriving DecidableEq

/-- The per-variant check of `ErrorDef::try_from` (error.rs lines 46-59):
the variant must be a unit variant, must carry no discriminant, and then
yields its identifier paired with its doc literals. -/
def errorVariant (v : Variant) : Except RErr (String × List String) :=
  if v.fields = Fields.unit then
    match v.discriminant with
    | some _ => Except.error (RErr.err msgDiscriminant)
    | none => Except.ok (v.ident, get_doc_literals v.attrs)
  else Except.error (RErr.err msgMustBeUnit)

/-- The variant collection of `ErrorDef::try_from`
(`collect::<Result<_, _>>()`): fail-fast at the first bad variant, order
preserved. -/
def errorVariants : List Variant → Except RErr (List (String × List String))
  | [] => Except.ok []
  | v :: rest =>
    match errorVariant v with
    | Except.error e => Except.error e
    | Except.ok p =>
      match errorVariants rest with
      | Except.error e => Except.error e
      | Except.ok ps => Except.ok (p :: ps)

/-- `ErrorDef::try_from` (error.rs lines 24-68).  The source receives the
item by mutable reference; the embedding therefore also returns the final
state of the item, so that claims about mutation are statable.
`check_type_def_generics` (outside `src/`) is an oracle parameter. -/
def ErrorDef.try_from
    (check_type_def_generics : Generics → Except RErr InstanceUsage)
    (index : Nat) (item : Item) : Except RErr ErrorDef × Item :=
  match item with
  | Item.enum_ e =>
    ((if e.vis = Visibility.public then
        match check_type_def_generics e.generics with
        | Except.error er => Except.error er
        | Except.ok u =>
          match e.generics.where_clause with
          | some _ => Except.error (RErr.err msgWhereClause)
          | none =>
            if e.ident = "Error" then
              match errorVariants e.variants with
              | Except.error er => Except.error er
              | Except.ok vs => Except.ok { index := index, variants := vs, instances := [u] }
            else Except.error (RErr.err msgExpectedErrorKw)
      else Except.error (RErr.err msgErrorMustBePublic)), item)
  | _ => (Except.error (RErr.err msgExpectEnum), item)


theorem take_item_attrs_eq_of_wf {G : Type} (marker : List String)
    (p : AttrPayload → Option G) (msg : String) (attrs : List Attribute)
    (h : ∀ a ∈ attrs, a.path = marker → (p a.payload).isSome) :
    take_item_attrs marker p msg attrs =
      Except.ok (attrs.filter fun a => !decide (a.path = marker),
                 (attrs.filter fun a => decide (a.path = marker)).filterMap fun a => p a.payload) := by
  induction attrs with
  | nil => rfl
  | cons a rest ih =>
    have hrest := ih (fun b hb => h b (List.mem_cons_of_mem a hb))
    by_cases hm : a.path = marker
    · have hs : (p a.payload).isSome := h a (List.mem_cons_self a rest) hm
      obtain ⟨g, hg⟩ := Option.isSome_iff_exists.mp hs
      simp [take_item_attrs, hm, hg, hrest]
    · simp [take_item_attrs, hm, hrest]

theorem take_item_attrs_ok_inv {G : Type} {marker : List String}
    {p : AttrPayload → Option G} {msg : String} {attrs r : List Attribute} {gs : List G}
    (h : take_item_attrs marker p msg attrs = Except.ok (r, gs)) :
    r = (attrs.filter fun a => !decide (a.path = marker)) ∧
    gs.length = (attrs.filter fun a => decide (a.path = marker)).length := by
  induction attrs generalizing r gs with
  | nil =>
    simp [take_item_attrs] at h
    obtain ⟨h1, h2⟩ := h
    subst h1
    subst h2
    simp
  | cons a rest ih =>
    by_cases hm : a.path = marker
    · simp only [take_item_attrs, if_pos hm] at h
      cases hp : p a.payload with
      | none => rw [hp] at h; exact absurd h (by simp)
      | some g =>
        rw [hp] at h
        cases ht : take_item_attrs marker p msg rest with
        | error e => rw [ht] at h; exact absurd h (by simp)
        | ok pr =>
          obtain ⟨r0, gs0⟩ := pr
          rw [ht] at h
          simp at h
          obtain ⟨hr, hgs⟩ := h
          obtain ⟨ih1, ih2⟩ := ih ht
          subst hr
          subst hgs
          simp [hm, ih1, ih2]
    · simp only [take_item_attrs, if_neg hm] at h
      cases ht : take_item_attrs marker p msg rest with
      | error e => rw [ht] at h; exact absurd h (by simp)
      | ok pr =>
        obtain ⟨r0, gs0⟩ := pr
        rw [ht] at h
        simp at h
        obtain ⟨hr, hgs⟩ := h
        obtain ⟨ih1, ih2⟩ := ih ht
        subst hr
        subst hgs
        simp [hm, ih1, ih2]

/-- Spec-side description of attribute stripping for one non-first
argument: remove exactly the attributes whose path is the compact marker,
leave everything else of the argument unchanged. -/
def stripArgAttrs : FnArg → FnArg
  | FnArg.receiver => FnArg.receiver
  | FnArg.typed attrs pat ty =>
    FnArg.typed (attrs.filter fun a => !decide (a.path = compactPath)) pat ty

/-- Spec-side description of attribute stripping for one method: remove
the weight markers from the method's own attributes and the compact
markers from every argument after the first; the first (origin) argument
and all other parts are unchanged. -/
def stripMethodAttrs (m : Method) : Method :=
  { attrs := m.attrs.filter fun a => !decide (a.path = weightPath),
    sig := { m.sig with inputs :=
      match m.sig.inputs with
      | [] => []
      | a0 :: rest => a0 :: rest.map stripArgAttrs } }

/-- Spec-side description of attribute stripping for one impl member. -/
def stripImplItem : ImplItem → ImplItem
  | ImplItem.method m => ImplItem.method (stripMethodAttrs m)
  | ImplItem.other t => ImplItem.other t

/-- Spec-side description of one `args` entry: a non-first parameter must
be a typed argument binding a plain identifier, and its `is_compact` flag
says whether the parameter carried exactly one compact-marker attribute. -/
def specArgEntry : FnArg → Option (Bool × String × Ty)
  | FnArg.typed attrs (Pat.ident n) ty =>
    some (decide ((attrs.countP fun a => decide (a.path = compactPath)) = 1), n, ty)
  | _ => none

/-- Spec-side description of the whole `args` sequence: one entry per
parameter after the first, in declared order. -/
def specArgEntries : List FnArg → Option (List (Bool × String × Ty))
  | [] => some []
  | a :: rest =>
    match specArgEntry a, specArgEntries rest with
    | some e, some es => some (e :: es)
    | _, _ => none

theorem processArg_ok {a a2 : FnArg} {entry : Bool × String × Ty}
    (h : processArg a = Except.ok (a2, entry)) :
    a2 = stripArgAttrs a ∧ specArgEntry a = some entry := by
  cases a with
  | receiver => exact absurd h (by simp [processArg])
  | typed attrs pat ty =>
    cases ht : take_item_attrs compactPath parseCompactAttr msgMalformedCompact attrs with
    | error e => simp [processArg, ht] at h
    | ok pr =>
      obtain ⟨attrs2, gs⟩ := pr
      simp only [processArg, ht] at h
      obtain ⟨hr, hlen⟩ := take_item_attrs_ok_inv ht
      by_cases hgt : gs.length > 1
      · rw [if_pos hgt] at h; exact absurd h (by simp)
      · rw [if_neg hgt] at h
        have hcount : (attrs.countP fun a => decide (a.path = compactPath)) = gs.length := by
          rw [hlen, List.countP_eq_length_filter]
        have hbool : (!gs.isEmpty) =
            decide ((attrs.countP fun a => decide (a.path = compactPath)) = 1) := by
          rw [hcount]
          cases gs with
          | nil => simp
          | cons g t =>
            cases t with
            | nil => simp
            | cons g2 t2 => exfalso; apply hgt; simp
        cases pat with
        | ident n =>
          simp at h
          obtain ⟨ha2, hentry⟩ := h
          refine ⟨?_, ?_⟩
          · rw [← ha2, hr, stripArgAttrs]
          · rw [specArgEntry, ← hentry, hbool]
        | tuple k => exact absurd h (by simp)
        | wild => exact absurd h (by simp)

theorem processArgs_ok {args args2 : List FnArg} {entries : List (Bool × String × Ty)}
    (h : processArgs args = Except.ok (args2, entries)) :
    args2 = args.map stripArgAttrs ∧ specArgEntries args = some entries := by
  induction args generalizing args2 entries with
  | nil =>
    simp [processArgs] at h
    obtain ⟨h1, h2⟩ := h
    subst h1; subst h2
    simp [specArgEntries]
  | cons a rest ih =>
    cases ha : processArg a with
    | error e => simp [processArgs, ha] at h
    | ok pr =>
      obtain ⟨a2, entry⟩ := pr
      cases hr : processArgs rest with
      | error e => simp [processArgs, ha, hr] at h
      | ok pr2 =>
        obtain ⟨rest2, entries2⟩ := pr2
        simp only [processArgs, ha, hr] at h
        simp at h
        obtain ⟨h1, h2⟩ := h
        obtain ⟨ha1, ha2⟩ := processArg_ok ha
        obtain ⟨ih1, ih2⟩ := ih hr
        subst h1; subst h2
        simp [specArgEntries, ha1, ih1, ha2, ih2]

theorem processMethod_ok_inv {cdfa : FnArg → Except RErr Unit} {m m2 : Method}
    {v : CallVariantDef} (h : processMethod cdfa m = Except.ok (m2, v)) :
    ∃ arg0 rest attrs2 rest2 w args,
      m.sig.inputs = arg0 :: rest ∧
      cdfa arg0 = Except.ok () ∧
      checkOutputType m.sig.output = Except.ok () ∧
      take_item_attrs weightPath parseWeightAttr msgMalformedWeight m.attrs =
        Except.ok (attrs2, [w]) ∧
      processArgs rest = Except.ok (rest2, args) ∧
      m2 = { attrs := attrs2, sig := { m.sig with inputs := arg0 :: rest2 } } ∧
      v = { fn_ := m.sig.ident, args := args, weight := w,
            docs := get_doc_literals attrs2 } := by
  cases hin : m.sig.inputs with
  | nil => simp [processMethod, hin] at h
  | cons arg0 rest =>
    cases hfa : cdfa arg0 with
    | error e => simp [processMethod, hin, hfa] at h
    | ok u =>
      cases u
      cases hout : checkOutputType m.sig.output with
      | error e => simp [processMethod, hin, hfa, hout] at h
      | ok u2 =>
        cases u2
        cases ht : take_item_attrs weightPath parseWeightAttr msgMalformedWeight m.attrs with
        | error e => simp [processMethod, hin, hfa, hout, ht] at h
        | ok pr =>
          obtain ⟨attrs2, ws⟩ := pr
          cases ws with
          | nil => simp [processMethod, hin, hfa, hout, ht] at h
          | cons w wt =>
            cases wt with
            | cons w2 wt2 => simp [processMethod, hin, hfa, hout, ht] at h
            | nil =>
              cases hargs : processArgs rest with
              | error e => simp [processMethod, hin, hfa, hout, ht, hargs] at h
              | ok pr2 =>
                obtain ⟨rest2, args⟩ := pr2
                simp only [processMethod, hin, hfa, hout, ht, hargs] at h
                simp at h
                obtain ⟨h1, h2⟩ := h
                subst h1
                subst h2
                exact ⟨arg0, rest, attrs2, rest2, w, args, rfl, hfa, rfl, rfl, hargs, rfl, rfl⟩

theorem processMethod_ok_strip {cdfa : FnArg → Except RErr Unit} {m m2 : Method}
    {v : CallVariantDef} (h : processMethod cdfa m = Except.ok (m2, v)) :
    m2 = stripMethodAttrs m ∧ specArgEntries (m.sig.inputs.drop 1) = some v.args := by
  obtain ⟨arg0, rest, attrs2, rest2, w, args, hin, hfa, hout, ht, hargs, hm2, hv⟩ :=
    processMethod_ok_inv h
  obtain ⟨hstrip, hlen⟩ := take_item_attrs_ok_inv ht
  obtain ⟨hrest2, hentries⟩ := processArgs_ok hargs
  subst hm2
  subst hv
  constructor
  · simp [stripMethodAttrs, hin, hstrip, hrest2]
  · rw [hin]
    simpa using hentries

theorem processImplItems_ok {cdfa : FnArg → Except RErr Unit}
    {items items2 : List ImplItem} {vs : List CallVariantDef}
    (h : processImplItems cdfa items = Except.ok (items2, vs)) :
    items2 = items.map stripImplItem := by
  induction items generalizing items2 vs with
  | nil =>
    simp [processImplItems] at h
    obtain ⟨h1, h2⟩ := h
    subst h1
    simp
  | cons ii rest ih =>
    cases ii with
    | other t => simp [processImplItems] at h
    | method m =>
      cases hm : processMethod cdfa m with
      | error e => simp [processImplItems, hm] at h
      | ok pr =>
        obtain ⟨m2, v⟩ := pr
        cases hr : processImplItems cdfa rest with
        | error e => simp [processImplItems, hm, hr] at h
        | ok pr2 =>
          obtain ⟨rest2, vs2⟩ := pr2
          simp only [processImplItems, hm, hr] at h
          simp at h
          obtain ⟨h1, h2⟩ := h
          subst h1
          obtain ⟨hstrip, _⟩ := processMethod_ok_strip hm
          simp [stripImplItem, hstrip, ih hr]

theorem CallDef.try_from_ok_inv {cig : Generics → Except RErr InstanceUsage}
    {cmu : Ty → Except RErr InstanceUsage} {cdfa : FnArg → Except RErr Unit}
    {i : ItemImpl} {d : CallDef}
    (h : CallDef.try_from cig cmu cdfa (Item.impl_ i) = Except.ok d) :
    ∃ u1 u2 items2 methods,
      cig i.generics = Except.ok u1 ∧ cmu i.self_ty = Except.ok u2 ∧
      i.trait_ = some ["Call"] ∧
      processImplItems cdfa i.items = Except.ok (items2, methods) ∧
      d = { instances := [u1, u2],
            item := { i with trait_ := none, items := items2 },
            methods := methods } := by
  cases hg : cig i.generics with
  | error e => simp [CallDef.try_from, hg] at h
  | ok u1 =>
    cases hs : cmu i.self_ty with
    | error e => simp [CallDef.try_from, hg, hs] at h
    | ok u2 =>
      cases htr : i.trait_ with
      | none => simp [CallDef.try_from, hg, hs, htr] at h
      | some p =>
        by_cases hp : p = ["Call"]
        · subst hp
          cases hpi : processImplItems cdfa i.items with
          | error e => simp [CallDef.try_from, hg, hs, htr, hpi] at h
          | ok pr =>
            obtain ⟨items2, methods⟩ := pr
            simp only [CallDef.try_from, hg, hs, htr, hpi, if_pos rfl] at h
            simp at h
            subst h
            exact ⟨u1, u2, items2, methods, rfl, rfl, rfl, rfl, rfl⟩
        · simp [CallDef.try_from, hg, hs, htr, hp] at h

theorem specArgEntries_length {l : List FnArg} {es : List (Bool × String × Ty)}
    (h : specArgEntries l = some es) : es.length = l.length := by
  induction l generalizing es with
  | nil => simp [specArgEntries] at h; simp [h.symm]
  | cons a rest ih =>
    simp only [specArgEntries] at h
    cases he : specArgEntry a with
    | none => rw [he] at h; exact absurd h (by simp)
    | some e =>
      rw [he] at h
      cases hr : specArgEntries rest with
      | none => rw [hr] at h; exact absurd h (by simp)
      | some es2 =>
        rw [hr] at h
        simp at h
        subst h
        simp [ih hr]

/-- A generics oracle accepting everything (used to instantiate the
external `check_impl_generics`/`check_type_def_generics` parameter in
concrete witnesses). -/
def oracleOkG : Generics → Except RErr InstanceUsage := fun _ => Except.ok ⟨false⟩

/-- A self-type oracle accepting everything (instantiates
`check_module_usage` in concrete witnesses). -/
def oracleOkT : Ty → Except RErr InstanceUsage := fun _ => Except.ok ⟨false⟩

/-- A first-argument predicate accepting everything (instantiates
`check_dispatchable_first_arg` in concrete witnesses). -/
def oracleOkA : FnArg → Except RErr Unit := fun _ => Except.ok ()

/-- A concrete well-formed method: doc comment, one weight attribute,
an origin argument, and one compact-marked argument. -/
def exMethod : Method :=
  { attrs := [⟨["doc"], AttrPayload.docLit "transfer docs"⟩,
              ⟨weightPath, AttrPayload.eqExpr (RExpr.lit 5)⟩],
    sig := { ident := "transfer",
             inputs := [FnArg.typed [] (Pat.ident "origin") (Ty.ident "OriginFor"),
                        FnArg.typed [⟨compactPath, AttrPayload.unit⟩]
                          (Pat.ident "amount") (Ty.ident "Balance")],
             output := some (Ty.ident "DispatchResultWithPostInfo") } }

/-- A concrete well-formed Call impl block containing `exMethod`. -/
def exImpl : ItemImpl :=
  { generics := ⟨["T"], none⟩, trait_ := some ["Call"],
    self_ty := Ty.ident "Module", items := [ImplItem.method exMethod] }

/-- The CallDef the validator produces on `exImpl`. -/
def exCallDef : CallDef :=
  { instances := [⟨false⟩, ⟨false⟩],
    item := { generics := ⟨["T"], none⟩, trait_ := none,
              self_ty := Ty.ident "Module",
              items := [ImplItem.method
                { attrs := [⟨["doc"], AttrPayload.docLit "transfer docs"⟩],
                  sig := { ident := "transfer",
                           inputs := [FnArg.typed [] (Pat.ident "origin") (Ty.ident "OriginFor"),
                                      FnArg.typed [] (Pat.ident "amount") (Ty.ident "Balance")],
                           output := some (Ty.ident "DispatchResultWithPostInfo") } }] },
    methods := [{ fn_ := "transfer",
                  args := [(true, "amount", Ty.ident "Balance")],
                  weight := RExpr.lit 5, docs := ["transfer docs"] }] }

/-- C1 counterexample: the claim says the retained `item` differs from the
input only by the removed marker attributes, the trait reference being
unchanged.  On the accepted fragment `exImpl` the validator succeeds but
the retained item has NO trait reference while the input's trait
reference is `Call`: `item.trait_.take()` moved it out of the item. -/
theorem c1_counterexample :
    CallDef.try_from oracleOkG oracleOkT oracleOkA (Item.impl_ exImpl) =
      Except.ok exCallDef ∧
    exCallDef.item.trait_ = none ∧ exImpl.trait_ = some ["Call"] := by
  refine ⟨by decide, by decide, by decide⟩

/-- C1 (amended): for every implementation-block fragment the Call
Declaration Validator accepts, the CallDef's `item` equals the input
fragment with the matched marker attributes removed (weight markers on
methods, compact markers on non-first parameters) AND with the trait
reference taken out of the item (the source moves it into the `call`
keyword); every other part of the fragment is unchanged. -/
theorem c1_item_strips_markers_and_trait
    {cig : Generics → Except RErr InstanceUsage} {cmu : Ty → Except RErr InstanceUsage}
    {cdfa : FnArg → Except RErr Unit} {i : ItemImpl} {d : CallDef}
    (h : CallDef.try_from cig cmu cdfa (Item.impl_ i) = Except.ok d) :
    d.item = { i with trait_ := none, items := i.items.map stripImplItem } := by
  obtain ⟨u1, u2, items2, methods, hg, hs, htr, hpi, hd⟩ := CallDef.try_from_ok_inv h
  subst hd
  simp [processImplItems_ok hpi]

theorem c1_witness :
    exCallDef.item =
      { exImpl with trait_ := none, items := exImpl.items.map stripImplItem } :=
  @c1_item_strips_markers_and_trait oracleOkG oracleOkT oracleOkA exImpl exCallDef
    (by decide)

/-- The stripped method the validator produces from `exMethod`. -/
def exStrippedMethod : Method :=
  { attrs := [⟨["doc"], AttrPayload.docLit "transfer docs"⟩],
    sig := { ident := "transfer",
             inputs := [FnArg.typed [] (Pat.ident "origin") (Ty.ident "OriginFor"),
                        FnArg.typed [] (Pat.ident "amount") (Ty.ident "Balance")],
             output := some (Ty.ident "DispatchResultWithPostInfo") } }

/-- The dispatch variant the validator produces from `exMethod`. -/
def exVariant : CallVariantDef :=
  { fn_ := "transfer", args := [(true, "amount", Ty.ident "Balance")],
    weight := RExpr.lit 5, docs := ["transfer docs"] }

/-- C4: for every accepted method of a Call implementation block, `args`
has exactly one `(is_compact, name, type)` entry per parameter after the
first, in declared parameter order and never including the first (origin)
parameter, and `is_compact` is true exactly when that parameter carried
one compact-marker attribute (`specArgEntries` is the literal spec-side
description of that sequence). -/
theorem c4_args_entries {cdfa : FnArg → Except RErr Unit} {m m2 : Method}
    {v : CallVariantDef} (h : processMethod cdfa m = Except.ok (m2, v)) :
    specArgEntries (m.sig.inputs.drop 1) = some v.args ∧
    v.args.length = m.sig.inputs.length - 1 := by
  have h2 := (processMethod_ok_strip h).2
  refine ⟨h2, ?_⟩
  rw [specArgEntries_length h2, List.length_drop]

theorem c4_witness :
    specArgEntries (exMethod.sig.inputs.drop 1) = some exVariant.args ∧
    exVariant.args.length = exMethod.sig.inputs.length - 1 :=
  @c4_args_entries oracleOkA exMethod exStrippedMethod exVariant (by decide)

/-- C10: an implementation-block fragment whose generics and self type
pass the oracles, whose trait reference is the literal `Call`, and which
has zero members is accepted, and the resulting CallDef has an empty
`methods` sequence (and the two usage tokens, and the item with the trait
reference taken out). -/
theorem c10_empty_impl
    {cig : Generics → Except RErr InstanceUsage} {cmu : Ty → Except RErr InstanceUsage}
    {cdfa : FnArg → Except RErr Unit} {i : ItemImpl} {u1 u2 : InstanceUsage}
    (h1 : cig i.generics = Except.ok u1) (h2 : cmu i.self_ty = Except.ok u2)
    (ht : i.trait_ = some ["Call"]) (hi : i.items = []) :
    CallDef.try_from cig cmu cdfa (Item.impl_ i) =
      Except.ok { instances := [u1, u2], item := { i with trait_ := none },
                  methods := [] } := by
  obtain ⟨g, tr, st, its⟩ := i
  simp only at h1 h2 ht hi
  subst ht
  subst hi
  simp [CallDef.try_from, h1, h2, processImplItems]

/-- A concrete empty Call impl block. -/
def exEmptyImpl : ItemImpl :=
  { generics := ⟨["T"], none⟩, trait_ := some ["Call"],
    self_ty := Ty.ident "Module", items := [] }

theorem c10_witness :
    CallDef.try_from oracleOkG oracleOkT oracleOkA (Item.impl_ exEmptyImpl) =
      Except.ok { instances := [⟨false⟩, ⟨false⟩],
                  item := { exEmptyImpl with trait_ := none }, methods := [] } :=
  c10_empty_impl rfl rfl rfl rfl

/-- C2: for every method passing the earlier per-method checks (at least
one input, first-argument predicate, return type), zero well-formed weight
markers fail with the requires-weight diagnostic, more than one fails with
the too-many diagnostic, and with exactly one weight marker the accepted
variant's `weight` is that marker's payload expression. -/
theorem c2_weight_cardinality {cdfa : FnArg → Except RErr Unit} {m : Method}
    {arg0 : FnArg} {rest : List FnArg}
    (hin : m.sig.inputs = arg0 :: rest)
    (hfa : cdfa arg0 = Except.ok ())
    (hout : checkOutputType m.sig.output = Except.ok ()) :
    ((m.attrs.countP fun a => decide (a.path = weightPath)) = 0 →
        processMethod cdfa m = Except.error (RErr.err msgRequireWeight)) ∧
    ((∀ a ∈ m.attrs, a.path = weightPath → (parseWeightAttr a.payload).isSome) →
      1 < (m.attrs.countP fun a => decide (a.path = weightPath)) →
        processMethod cdfa m = Except.error (RErr.err msgTooManyWeight)) ∧
    (∀ e m2 v, (m.attrs.filter fun a => decide (a.path = weightPath)) =
          [⟨weightPath, AttrPayload.eqExpr e⟩] →
        processMethod cdfa m = Except.ok (m2, v) → v.weight = e) := by
  refine ⟨?_, ?_, ?_⟩
  · intro hzero
    have hnil : (m.attrs.filter fun a => decide (a.path = weightPath)) = [] := by
      rw [← List.length_eq_zero]
      rw [← List.countP_eq_length_filter]
      exact hzero
    have hwf : ∀ a ∈ m.attrs, a.path = weightPath →
        (parseWeightAttr a.payload).isSome := by
      intro a ha hp
      exfalso
      have : a ∈ (m.attrs.filter fun a => decide (a.path = weightPath)) :=
        List.mem_filter.mpr ⟨ha, by simp [hp]⟩
      rw [hnil] at this
      cases this
    have htake := take_item_attrs_eq_of_wf weightPath parseWeightAttr
      msgMalformedWeight m.attrs hwf
    rw [hnil] at htake
    simp [processMethod, hin, hfa, hout, htake]
  · intro hwf hmany
    have htake := take_item_attrs_eq_of_wf weightPath parseWeightAttr
      msgMalformedWeight m.attrs hwf
    obtain ⟨hr, hlen⟩ := take_item_attrs_ok_inv htake
    rw [← List.countP_eq_length_filter] at hlen
    cases hws : ((m.attrs.filter fun a => decide (a.path = weightPath)).filterMap
        fun a => parseWeightAttr a.payload) with
    | nil => rw [hws] at hlen; simp at hlen; omega
    | cons w wt =>
      cases wt with
      | nil => rw [hws] at hlen; simp at hlen; omega
      | cons w2 wt2 =>
        rw [hws] at htake
        simp [processMethod, hin, hfa, hout, htake]
  · intro e m2 v hone hok
    have hwf : ∀ a ∈ m.attrs, a.path = weightPath →
        (parseWeightAttr a.payload).isSome := by
      intro a ha hp
      have : a ∈ (m.attrs.filter fun a => decide (a.path = weightPath)) :=
        List.mem_filter.mpr ⟨ha, by simp [hp]⟩
      rw [hone] at this
      have ha2 : a = ⟨weightPath, AttrPayload.eqExpr e⟩ := by
        cases this with
        | head => rfl
        | tail _ h2 => cases h2
      rw [ha2]
      simp [parseWeightAttr]
    have htake := take_item_attrs_eq_of_wf weightPath parseWeightAttr
      msgMalformedWeight m.attrs hwf
    rw [hone] at htake
    simp [parseWeightAttr] at htake
    obtain ⟨a0, r0, attrs2, rest2, w, args, hin2, hfa2, hout2, ht2, hargs2, hm2, hv⟩ :=
      processMethod_ok_inv hok
    rw [htake] at ht2
    have hw : w = e := by
      have := Except.ok.inj ht2
      have h2 := (Prod.mk.injEq _ _ _ _).mp this
      have h3 := h2.2
      exact (List.cons.injEq _ _ _ _).mp h3.symm |>.1
    subst hv
    simp [hw]

/-- A concrete method with no weight attribute (and otherwise valid). -/
def exNoWeightMethod : Method :=
  { attrs := [],
    sig := { ident := "transfer",
             inputs := [FnArg.typed [] (Pat.ident "origin") (Ty.ident "OriginFor")],
             output := some (Ty.ident "DispatchResultWithPostInfo") } }

theorem c2_witness :
    processMethod oracleOkA exNoWeightMethod =
      Except.error (RErr.err msgRequireWeight) :=
  (@c2_weight_cardinality oracleOkA exNoWeightMethod
    (FnArg.typed [] (Pat.ident "origin") (Ty.ident "OriginFor"))
    [] rfl rfl rfl).1 (by decide)

/-- C6: for every method passing the earlier checks (non-empty inputs,
first-argument predicate), a missing return type annotation fails with the
require-return-type diagnostic, and an annotated return type that is not
the literal `DispatchResultWithPostInfo` fails the keyword parse. -/
theorem c6_return_type {cdfa : FnArg → Except RErr Unit} {m : Method}
    {arg0 : FnArg} {rest : List FnArg}
    (hin : m.sig.inputs = arg0 :: rest)
    (hfa : cdfa arg0 = Except.ok ()) :
    (m.sig.output = none →
        processMethod cdfa m = Except.error (RErr.err msgRequireRet)) ∧
    (∀ t, m.sig.output = some t → t ≠ Ty.ident "DispatchResultWithPostInfo" →
        processMethod cdfa m = Except.error (RErr.err msgExpectedDRWPIKw)) := by
  constructor
  · intro hno
    simp [processMethod, hin, hfa, checkOutputType, hno]
  · intro t hsome hne
    simp [processMethod, hin, hfa, checkOutputType, hsome, hne]

/-- A concrete method with no return type annotation. -/
def exNoRetMethod : Method :=
  { attrs := [⟨weightPath, AttrPayload.eqExpr (RExpr.lit 5)⟩],
    sig := { ident := "transfer",
             inputs := [FnArg.typed [] (Pat.ident "origin") (Ty.ident "OriginFor")],
             output := none } }

theorem c6_witness :
    processMethod oracleOkA exNoRetMethod = Except.error (RErr.err msgRequireRet) :=
  (@c6_return_type oracleOkA exNoRetMethod
    (FnArg.typed [] (Pat.ident "origin") (Ty.ident "OriginFor"))
    [] rfl rfl).1 rfl

/-- C8: a non-first parameter whose binding pattern is not a plain
identifier fails with the argument-must-be-identifier diagnostic, provided
its compact markers are well-formed and not more than one (those checks
come first in the source). -/
theorem c8_arg_pattern {attrs : List Attribute} {pat : Pat} {ty : Ty}
    (hpat : ∀ n, pat ≠ Pat.ident n)
    (hwf : ∀ a ∈ attrs, a.path = compactPath → (parseCompactAttr a.payload).isSome)
    (hcount : (attrs.countP fun a => decide (a.path = compactPath)) ≤ 1) :
    processArg (FnArg.typed attrs pat ty) =
      Except.error (RErr.err msgArgMustBeIdent) := by
  have htake := take_item_attrs_eq_of_wf compactPath parseCompactAttr
    msgMalformedCompact attrs hwf
  obtain ⟨hr, hlen⟩ := take_item_attrs_ok_inv htake
  rw [← List.countP_eq_length_filter] at hlen
  have hle : ¬ ((attrs.filter fun a => decide (a.path = compactPath)).filterMap
      fun a => parseCompactAttr a.payload).length > 1 := by
    rw [hlen]; omega
  cases pat with
  | ident n => exact absurd rfl (hpat n)
  | tuple k => simp [processArg, htake, hle]
  | wild => simp [processArg, htake, hle]

theorem c8_witness :
    processArg (FnArg.typed [] (Pat.tuple 2) (Ty.ident "Balance")) =
      Except.error (RErr.err msgArgMustBeIdent) :=
  c8_arg_pattern (fun n h => Pat.noConfusion h)
    (fun a ha => absurd ha (List.not_mem_nil a)) (by decide)

/-- C5: for every implementation-block fragment whose generics and self
type pass the oracles, a missing trait reference fails with the
expected-Call-trait-reference diagnostic (and no record is produced), and
a trait reference whose path is not the single identifier `Call` fails the
keyword parse. -/
theorem c5_trait_reference
    {cig : Generics → Except RErr InstanceUsage} {cmu : Ty → Except RErr InstanceUsage}
    {cdfa : FnArg → Except RErr Unit} {i : ItemImpl} {u1 u2 : InstanceUsage}
    (h1 : cig i.generics = Except.ok u1) (h2 : cmu i.self_ty = Except.ok u2) :
    (i.trait_ = none →
        CallDef.try_from cig cmu cdfa (Item.impl_ i) =
          Except.error (RErr.err msgExpectCallTrait)) ∧
    (∀ p, i.trait_ = some p → p ≠ ["Call"] →
        CallDef.try_from cig cmu cdfa (Item.impl_ i) =
          Except.error (RErr.err msgExpectedCallKw)) := by
  constructor
  · intro hno
    simp [CallDef.try_from, h1, h2, hno]
  · intro p hsome hne
    simp [CallDef.try_from, h1, h2, hsome, hne]

/-- A concrete impl block with no trait reference. -/
def exNoTraitImpl : ItemImpl :=
  { generics := ⟨["T"], none⟩, trait_ := none,
    self_ty := Ty.ident "Module", items := [] }

theorem c5_witness :
    CallDef.try_from oracleOkG oracleOkT oracleOkA (Item.impl_ exNoTraitImpl) =
      Except.error (RErr.err msgExpectCallTrait) :=
  (@c5_trait_reference oracleOkG oracleOkT oracleOkA exNoTraitImpl ⟨false⟩ ⟨false⟩
    rfl rfl).1 rfl

theorem errorVariants_error_of_bad {l : List Variant} {v : Variant}
    (hv : v ∈ l) (hbad : v.fields ≠ Fields.unit ∨ v.discriminant ≠ none) :
    ∃ er, errorVariants l = Except.error er := by
  induction l with
  | nil => cases hv
  | cons a rest ih =>
    cases hv with
    | head =>
      cases hbad with
      | inl hf =>
        refine ⟨RErr.err msgMustBeUnit, ?_⟩
        simp [errorVariants, errorVariant, hf]
      | inr hd =>
        cases hdm : v.discriminant with
        | none => exact absurd hdm hd
        | some d =>
          by_cases hf : v.fields = Fields.unit
          · refine ⟨RErr.err msgDiscriminant, ?_⟩
            simp [errorVariants, errorVariant, hf, hdm]
          · refine ⟨RErr.err msgMustBeUnit, ?_⟩
            simp [errorVariants, errorVariant, hf]
    | tail _ hrest =>
      obtain ⟨er, her⟩ := ih hrest
      cases ha : errorVariant a with
      | error e0 => exact ⟨e0, by simp [errorVariants, ha]⟩
      | ok p => exact ⟨er, by simp [errorVariants, ha, her]⟩

theorem errorVariants_ok_of_good {l : List Variant}
    (h : ∀ v ∈ l, v.fields = Fields.unit ∧ v.discriminant = none) :
    errorVariants l =
      Except.ok (l.map fun v => (v.ident, get_doc_literals v.attrs)) := by
  induction l with
  | nil => rfl
  | cons a rest ih =>
    obtain ⟨hf, hd⟩ := h a (List.mem_cons_self a rest)
    have ihr := ih (fun v hv => h v (List.mem_cons_of_mem a hv))
    simp [errorVariants, errorVariant, hf, hd, ihr]

/-- C3: if any variant of the error enumeration carries fields or an
explicit discriminant, the whole validation fails (no partial record);
if every variant is a unit variant without discriminant (and the other
enum-level checks pass), validation succeeds and `variants` is the
ordered sequence of (identifier, doc literals) pairs in declaration
order. -/
theorem c3_error_variants
    {ctdg : Generics → Except RErr InstanceUsage} {idx : Nat} {e : ItemEnum}
    {u : InstanceUsage} :
    ((∃ v ∈ e.variants, v.fields ≠ Fields.unit ∨ v.discriminant ≠ none) →
      ∃ er, (ErrorDef.try_from ctdg idx (Item.enum_ e)).1 = Except.error er) ∧
    (e.vis = Visibility.public → ctdg e.generics = Except.ok u →
      e.generics.where_clause = none → e.ident = "Error" →
      (∀ v ∈ e.variants, v.fields = Fields.unit ∧ v.discriminant = none) →
      (ErrorDef.try_from ctdg idx (Item.enum_ e)).1 =
        Except.ok { index := idx,
                    variants := e.variants.map fun v => (v.ident, get_doc_literals v.attrs),
                    instances := [u] }) := by
  constructor
  · intro hbad
    obtain ⟨v, hv, hb⟩ := hbad
    by_cases hvis : e.vis = Visibility.public
    · cases hg : ctdg e.generics with
      | error er => exact ⟨er, by simp [ErrorDef.try_from, hvis, hg]⟩
      | ok u0 =>
        cases hw : e.generics.where_clause with
        | some w =>
          exact ⟨RErr.err msgWhereClause, by simp [ErrorDef.try_from, hvis, hg, hw]⟩
        | none =>
          by_cases hid : e.ident = "Error"
          · obtain ⟨er, her⟩ := errorVariants_error_of_bad hv hb
            exact ⟨er, by simp [ErrorDef.try_from, hvis, hg, hw, hid, her]⟩
          · exact ⟨RErr.err msgExpectedErrorKw,
              by simp [ErrorDef.try_from, hvis, hg, hw, hid]⟩
    · exact ⟨RErr.err msgErrorMustBePublic, by simp [ErrorDef.try_from, hvis]⟩
  · intro hvis hg hw hid hgood
    simp [ErrorDef.try_from, hvis, hg, hw, hid, errorVariants_ok_of_good hgood]

/-- The spec's concrete scenario: `pub enum Error<T> { InsufficientBalance,
Overflow }`. -/
def exGoodEnum : ItemEnum :=
  { vis := Visibility.public, ident := "Error", generics := ⟨["T"], none⟩,
    variants := [⟨[], "InsufficientBalance", Fields.unit, none⟩,
                 ⟨[], "Overflow", Fields.unit, none⟩] }

/-- A public error enum with one variant carrying a field. -/
def exBadEnum : ItemEnum :=
  { vis := Visibility.public, ident := "Error", generics := ⟨["T"], none⟩,
    variants := [⟨[], "Bad", Fields.named 1, none⟩] }

theorem c3_witness :
    (∃ er, (ErrorDef.try_from oracleOkG 1 (Item.enum_ exBadEnum)).1 =
      Except.error er) ∧
    (ErrorDef.try_from oracleOkG 0 (Item.enum_ exGoodEnum)).1 =
      Except.ok { index := 0,
                  variants := exGoodEnum.variants.map
                    fun v => (v.ident, get_doc_literals v.attrs),
                  instances := [⟨false⟩] } := by
  constructor
  · exact (@c3_error_variants oracleOkG 1 exBadEnum ⟨false⟩).1
      ⟨⟨[], "Bad", Fields.named 1, none⟩, by decide, Or.inl (by decide)⟩
  · exact (@c3_error_variants oracleOkG 0 exGoodEnum ⟨false⟩).2 rfl rfl rfl rfl (by decide)

/-- C7: every error enumeration fragment that is not declared public fails
with the must-be-public diagnostic, whatever the oracle says (the
visibility check precedes everything else), and no ErrorDef record is
produced. -/
theorem c7_error_must_be_public
    {ctdg : Generics → Except RErr InstanceUsage} {idx : Nat} {e : ItemEnum}
    (h : e.vis ≠ Visibility.public) :
    (ErrorDef.try_from ctdg idx (Item.enum_ e)).1 =
      Except.error (RErr.err msgErrorMustBePublic) := by
  simp [ErrorDef.try_from, h]

theorem c7_witness :
    (ErrorDef.try_from oracleOkG 0
        (Item.enum_ { exGoodEnum with vis := Visibility.inherited })).1 =
      Except.error (RErr.err msgErrorMustBePublic) :=
  c7_error_must_be_public (by decide)

/-- C9: `ErrorDef::try_from` receives the item by mutable reference but
performs no write anywhere on any path: the embedding threads the item
through and the final state always equals the input, on success and on
failure alike. -/
theorem c9_item_not_mutated
    (ctdg : Generics → Except RErr InstanceUsage) (idx : Nat) (item : Item) :
    (ErrorDef.try_from ctdg idx item).2 = item := by
  cases item <;> rfl
